import Mathlib

/-!
Verification of the `enum_ffi` attribute macro (src/lib.rs of enum-ffi-newtype).

The macro takes a C-style enumeration and emits: a "domain" enumeration (the
source variants plus a catch-all), an FFI-safe newtype ("wire type") wrapping
the integer representation, one associated constant per source variant, and
the two conversions between the types.

The development has two layers:

* a shallow embedding of the macro's own transformation logic
  (`get_enum_repr`, `evaluate_discriminant_expr`, the variant walker,
  the domain-type builder, `enum_ffi_newtype`, `enum_ffi`), translated
  clause by clause from src/lib.rs; and
* the semantics of the emitted declarations (Rust's discriminant
  assignment for C-like enums, the match-based wire-to-domain conversion,
  the `as`-cast based domain-to-wire conversion, and the emitted
  `assert!(CatchAll as u64 != 0)` constant assertion), needed to state the
  round-trip and assertion claims about the generated code.
-/

namespace EnumFfi

/-- An error produced during macro expansion (`syn::Error`).  We keep the
message; spans are not modelled. -/
structure SynError where
  message : String
deriving DecidableEq, Repr

/-- The literal forms relevant to `evaluate_discriminant_expr`:
`Lit::Int` (whose mathematical value we record; syn integer literals may be
negative when they come from macro-generated tokens) and every other literal
kind. -/
inductive Lit where
  | int (value : Int)
  | other
deriving DecidableEq, Repr

/-- Discriminant expressions as matched by `evaluate_discriminant_expr`:
`Expr::Lit` or any non-literal expression form. -/
inductive Expr where
  | lit (l : Lit)
  | nonLit
deriving DecidableEq, Repr

/-- One variant of the source enumeration (`syn::Variant`).  `attrs` is kept
as opaque token text (the macro never inspects variant attributes; the
appended catch-all gets `attrs := []`).  `fields` is the number of fields
(`Fields::Unit` has 0); the macro only tests `fields.is_empty()`. -/
structure Variant where
  attrs : List String
  ident : String
  fields : Nat
  discriminant : Option Expr
deriving DecidableEq, Repr, Inhabited

/-- `syn::AttrStyle`. -/
inductive AttrStyle where
  | outer
  | inner
deriving DecidableEq, Repr

/-- The attribute meta forms distinguished by `get_enum_repr`:
`Meta::List` (with `path.get_ident()` and the inner token stream, kept as
text) versus every other form. -/
inductive Meta where
  | list (pathIdent : Option String) (tokens : String)
  | other
deriving DecidableEq, Repr

/-- An outer or inner attribute on the enumeration (`syn::Attribute`). -/
structure Attribute where
  style : AttrStyle
  meta : Meta
deriving DecidableEq, Repr

/-- The parsed source enumeration (`syn::ItemEnum`): identifier, visibility
(kept as opaque token text), attributes, and the ordered variant list. -/
structure ItemEnum where
  ident : String
  vis : String
  attrs : List Attribute
  variants : List Variant
deriving DecidableEq, Repr

/-- The options accepted by the macro invocation (struct `MacroArgs` in
src/lib.rs, parsed by darling; the darling parsing itself is an external
collaborator and is not modelled, the macro logic receives the record). -/
structure MacroArgs where
  non_zero : Bool
  catch_all : Option String
  rust_enum_name : Option String
deriving DecidableEq, Repr

/-- `i64::MIN` as an integer. -/
def i64Min : Int := -(2 ^ 63)

/-- `i64::MAX` as an integer. -/
def i64Max : Int := 2 ^ 63 - 1

/-- `LitInt::base10_parse::<i64>`: parsing the literal's value as an `i64`
fails outside the `i64` range (with the standard library's parse-error
messages), otherwise yields the value itself. -/
def base10_parse_i64 (value : Int) : Except SynError Int :=
  if value > i64Max then .error ⟨"number too large to fit in target type"⟩
  else if value < i64Min then .error ⟨"number too small to fit in target type"⟩
  else .ok value

/-- `evaluate_discriminant_expr` (src/lib.rs lines 29-38): only a
`Expr::Lit(ExprLit { lit: Lit::Int(..) })` is accepted, via
`base10_parse::<i64>`; every other expression form is the error
"discriminant must be an integer". -/
def evaluate_discriminant_expr : Expr → Except SynError Int
  | .lit (.int value) => base10_parse_i64 value
  | .lit .other => .error ⟨"discriminant must be an integer"⟩
  | .nonLit => .error ⟨"discriminant must be an integer"⟩

/-- The body of the `find_map` closure in `get_enum_repr`: a `Meta::List`
whose path is the single identifier `repr` yields its inner tokens. -/
def reprFromAttr (attr : Attribute) : Option String :=
  match attr.meta with
  | .list (some ident) tokens => if ident = "repr" then some tokens else none
  | .list none _ => none
  | .other => none

/-- `get_enum_repr` (src/lib.rs lines 40-55): the first outer `repr(...)`
attribute's inner tokens, or the error "No `repr` attribute found.". -/
def get_enum_repr (item_enum : ItemEnum) : Except SynError String :=
  match (item_enum.attrs.filter (fun a => a.style == AttrStyle.outer)).findSome? reprFromAttr with
  | some tokens => .ok tokens
  | none => .error ⟨"No `repr` attribute found."⟩

/-- Two's complement wrapping into the signed 64-bit range (identity on the
`i64` range).  `curr_discriminant` in src/lib.rs is an `i64`, and the
increment `curr_discriminant += 1` at line 122 is `i64` addition: with
overflow checks off (release profile) it wraps by two's complement, which is
what this function models; with overflow checks on the increment panics
instead, aborting the expansion, so in neither configuration does the macro
ever emit an out-of-range counter value. -/
def wrapI64 (n : Int) : Int := (n + 2 ^ 63).emod (2 ^ 64) - 2 ^ 63

/-- The per-variant loop of `enum_ffi_newtype` (src/lib.rs lines 98-123):
starting from the running discriminant `curr`, evaluate an explicit
discriminant if present, reject a zero counter under non-zero mode, reject
variants with fields, record the associated constant `(ident, value)`, and
continue with `curr + 1` — an `i64` increment, modelled by `wrapI64`.  The
returned list represents the parallel
`newtype_variants` / `newtype_variant_idents` vectors (both are pushed once
per iteration with the same identifier).  `stepDiscriminant` is the head of
one iteration (lines 99-101): evaluate the explicit discriminant if present,
otherwise keep the running counter. -/
def stepDiscriminant (curr : Int) (v : Variant) : Except SynError Int :=
  match v.discriminant with
  | some e => evaluate_discriminant_expr e
  | none => .ok curr

/-- The rest of the per-variant loop, continuing `stepDiscriminant`. -/
def walkVariants (non_zero : Bool) (curr : Int) : List Variant → Except SynError (List (String × Int))
  | [] => .ok []
  | v :: rest =>
    match stepDiscriminant curr v with
    | .error err => .error err
    | .ok curr' =>
      if non_zero && (curr' == 0) then
        .error ⟨"discriminant must not be zero for NonZero representation"⟩
      else if !(v.fields == 0) then
        .error ⟨"FFI Enum variants may not contain fields"⟩
      else
        match walkVariants non_zero (wrapI64 (curr' + 1)) rest with
        | .error err => .error err
        | .ok cs => .ok ((v.ident, curr') :: cs)

/-- The fresh unit variant pushed by the domain-type builder
(src/lib.rs lines 136-141 and 146-151): empty attributes, unit fields, no
discriminant. -/
def mkUnitVariant (ident : String) : Variant :=
  { attrs := [], ident := ident, fields := 0, discriminant := none }

/-- The emitted declaration block of a successful expansion, as a record:
the domain enumeration (`rust_enum`, the renamed clone possibly extended by
the catch-all), the catch-all identifier, the mode flag, the repr tokens,
wire-type identifier and visibility, and the per-variant associated
constants `(name, discriminant)`.  The `#(#newtype_variant_idents)` list of
the emitted match equals `constants.map Prod.fst`. -/
structure Output where
  rustEnum : ItemEnum
  catchAllIdent : String
  nonZero : Bool
  baseRepr : String
  wireIdent : String
  wireVis : String
  constants : List (String × Int)
deriving DecidableEq, Repr

/-- The tail of `enum_ffi_newtype` after the fallible steps (src/lib.rs
lines 125-195): rename the cloned enumeration to `rust_enum_name` (default
`<Source>Rustified`), resolve the catch-all (reuse an existing variant of
the given name, else append a fresh unit variant, defaulting to
`UnknownVariant<Source>`), and assemble the emitted block. -/
def buildOutput (item_enum : ItemEnum) (macro_args : MacroArgs)
    (base_repr_tokens : String) (constants : List (String × Int)) : Output :=
  let original_ident := item_enum.ident
  let rust_enum_ident :=
    match macro_args.rust_enum_name with
    | some name => name
    | none => original_ident ++ "Rustified"
  let rust_enum : ItemEnum := { item_enum with ident := rust_enum_ident }
  let result :=
    match macro_args.catch_all with
    | some catch_all_variant =>
      let variant_exists := rust_enum.variants.any (fun v => v.ident == catch_all_variant)
      if variant_exists then
        (rust_enum, catch_all_variant)
      else
        ({ rust_enum with variants := rust_enum.variants ++ [mkUnitVariant catch_all_variant] },
         catch_all_variant)
    | none =>
      let catch_all_ident := "UnknownVariant" ++ original_ident
      ({ rust_enum with variants := rust_enum.variants ++ [mkUnitVariant catch_all_ident] },
       catch_all_ident)
  { rustEnum := result.1
    catchAllIdent := result.2
    nonZero := macro_args.non_zero
    baseRepr := base_repr_tokens
    wireIdent := original_ident
    wireVis := item_enum.vis
    constants := constants }

/-- `enum_ffi_newtype` (src/lib.rs lines 80-196): extract the repr, walk the
variants, then build the emitted block.  Any failure aborts with the single
error. -/
def enum_ffi_newtype (item_enum : ItemEnum) (macro_args : MacroArgs) : Except SynError Output :=
  match get_enum_repr item_enum with
  | .error err => .error err
  | .ok base_repr_tokens =>
    match walkVariants macro_args.non_zero 0 item_enum.variants with
    | .error err => .error err
    | .ok constants => .ok (buildOutput item_enum macro_args base_repr_tokens constants)

/-- What the attribute macro hands back to the compiler: either the emitted
declarations or a single `compile_error!` carrying the error. -/
inductive MacroOutput where
  | decls (output : Output)
  | compileError (err : SynError)
deriving DecidableEq, Repr

/-- `enum_ffi` (src/lib.rs lines 22-27): on success the emitted
declarations, on failure `err.to_compile_error()` and nothing else. -/
def enum_ffi (input : ItemEnum) (args : MacroArgs) : MacroOutput :=
  match enum_ffi_newtype input args with
  | .ok output => .decls output
  | .error err => .compileError err

/-! ## Semantics of the emitted declarations

The emitted domain enumeration is a C-like Rust enum carrying the source's
`repr`; Rust assigns its discriminants by the running-counter rule (explicit
value, else previous plus one, starting at zero).  For enumerations the
macro accepted, every explicit discriminant is an integer literal, so the
rule is computable from the AST.  The conversions are interpreted at the
numeric level: when the emitted code compiles, every discriminant fits the
repr primitive, so the `value as <repr>` casts are the identity on the
discriminant and wire values are compared by their integer value (derived
`PartialEq` on the newtype, and `NonZero` equality, compare the wrapped
integers). -/

/-- The discriminant a variant receives from running counter `curr`:
its explicit literal value if present, else `curr`.  (For macro-accepted
enumerations the `some`-but-not-int-literal case never occurs; it is mapped
to the running value.) -/
def discOfV (curr : Int) (v : Variant) : Int :=
  match v.discriminant with
  | some (Expr.lit (Lit.int n)) => n
  | some (Expr.lit Lit.other) => curr
  | some Expr.nonLit => curr
  | none => curr

/-- Rust's discriminant assignment for a C-like enum, as `(name, value)`
pairs in declaration order.  The successor uses the same wrapped step as the
walker; rustc itself computes the successor in the repr type and rejects
discriminant overflow outright, so on every emitted enumeration that
compiles the wrap is the identity and this is exactly rustc's assignment. -/
def assignPairs (curr : Int) : List Variant → List (String × Int)
  | [] => []
  | v :: rest =>
    (v.ident, discOfV curr v) :: assignPairs (wrapI64 (discOfV curr v + 1)) rest

/-- The running counter value after a list of variants (used to split
`assignPairs` across an append). -/
def afterCounter (curr : Int) : List Variant → Int
  | [] => curr
  | v :: rest => afterCounter (wrapI64 (discOfV curr v + 1)) rest

/-- The name-to-discriminant association of the emitted domain enumeration. -/
def Output.domainPairs (o : Output) : List (String × Int) :=
  assignPairs 0 o.rustEnum.variants

/-- The discriminant of the domain variant with the given name (0 if no such
variant; theorems only apply it to variant names). -/
def Output.domainDisc (o : Output) (name : String) : Int :=
  match o.domainPairs.find? (fun p => p.1 == name) with
  | some p => p.2
  | none => 0

/-- The numeric value of the emitted domain-to-wire conversion
(`From<#rust_enum_ident> for #original_ident`): `value as <repr>` — the
domain variant's discriminant (under non-zero mode additionally wrapped by
`NonZero::new_unchecked`, which does not change the numeric value). -/
def Output.domainToWire (o : Output) (name : String) : Int :=
  o.domainDisc name

/-- The emitted wire-to-domain conversion (`From<#original_ident> for
#rust_enum_ident`): the match arms compare the wire value against each
associated constant in declaration order, and the default arm yields the
catch-all variant. -/
def Output.wireToDomain (o : Output) (w : Int) : String :=
  match o.constants.find? (fun p => p.2 == w) with
  | some p => p.1
  | none => o.catchAllIdent

/-- Rust's `as u64` cast on an enum value whose discriminant fits its repr
primitive: the value modulo `2 ^ 64` (unsigned repr values are unchanged,
negative signed values are sign-extended). -/
def castU64 (n : Int) : Int := n.emod (2 ^ 64)

/-- Whether the emitted constant assertion
`const _: () = const { assert!(#rust_enum_ident::#catch_all_ident as u64 != 0) };`
(src/lib.rs line 169) passes; if it does not, compilation of the emitted
code fails. -/
def Output.assertionPasses (o : Output) : Bool :=
  castU64 (o.domainDisc o.catchAllIdent) != 0

/-- Formalization of the failure condition of claim C5: walking from
counter `curr`, some variant's running discriminant (after applying its
explicit discriminant, if any) is zero, with every earlier variant passing
the evaluator and the fields check. -/
def reachesZeroDiscriminant (curr : Int) : List Variant → Bool
  | [] => false
  | v :: rest =>
    match v.discriminant with
    | some e =>
      match evaluate_discriminant_expr e with
      | .error _ => false
      | .ok n =>
        n == 0 || ((v.fields == 0) && reachesZeroDiscriminant (wrapI64 (n + 1)) rest)
    | none =>
      curr == 0 ||
        ((v.fields == 0) && reachesZeroDiscriminant (wrapI64 (curr + 1)) rest)

/-- The error of the zero-discriminant rejection under non-zero mode. -/
def zeroDiscMsg : SynError :=
  ⟨"discriminant must not be zero for NonZero representation"⟩

/-! ## Concrete enumerations

The three enumerations of tests/enum.rs, plus corner-case inputs used to
settle the claims about the emitted assertion and the catch-all uniqueness. -/

/-- `enum Foo { Variant, Variant2, Variant3 }` with `#[repr(u32)]`
(tests/enum.rs, default mode, `rust_enum_name = "FooRs"`). -/
def fooEnum : ItemEnum :=
  { ident := "Foo", vis := "",
    attrs := [⟨AttrStyle.outer, Meta.list (some "repr") "u32"⟩,
              ⟨AttrStyle.outer, Meta.list (some "derive") "Debug, PartialEq"⟩],
    variants := [⟨[], "Variant", 0, none⟩, ⟨[], "Variant2", 0, none⟩,
                 ⟨[], "Variant3", 0, none⟩] }

def fooArgs : MacroArgs :=
  { non_zero := false, catch_all := none, rust_enum_name := some "FooRs" }

/-- The expansion of `fooEnum` (checked against `enum_ffi_newtype` by `rfl`
in the theorems that use it). -/
def fooOutput : Output :=
  buildOutput fooEnum fooArgs "u32" [("Variant", 0), ("Variant2", 1), ("Variant3", 2)]

/-- `enum FooNonZero { Variant = 1, Variant2, Variant3 }` with `#[repr(u32)]`
(tests/enum.rs, `non_zero` mode). -/
def fooNonZeroEnum : ItemEnum :=
  { ident := "FooNonZero", vis := "",
    attrs := [⟨AttrStyle.outer, Meta.list (some "repr") "u32"⟩,
              ⟨AttrStyle.outer, Meta.list (some "derive") "Debug, PartialEq"⟩],
    variants := [⟨[], "Variant", 0, some (Expr.lit (Lit.int 1))⟩,
                 ⟨[], "Variant2", 0, none⟩, ⟨[], "Variant3", 0, none⟩] }

def fooNonZeroArgs : MacroArgs :=
  { non_zero := true, catch_all := none, rust_enum_name := none }

/-- The expansion of `fooNonZeroEnum`. -/
def fooNonZeroOutput : Output :=
  buildOutput fooNonZeroEnum fooNonZeroArgs "u32"
    [("Variant", 1), ("Variant2", 2), ("Variant3", 3)]

/-- `enum FooWithCatchAll { Variant, Variant2, Variant3, Unknown }` with
`catch_all = "Unknown"` naming an existing variant (tests/enum.rs). -/
def fooCatchAllEnum : ItemEnum :=
  { ident := "FooWithCatchAll", vis := "",
    attrs := [⟨AttrStyle.outer, Meta.list (some "repr") "u32"⟩,
              ⟨AttrStyle.outer, Meta.list (some "derive") "Debug, PartialEq"⟩],
    variants := [⟨[], "Variant", 0, none⟩, ⟨[], "Variant2", 0, none⟩,
                 ⟨[], "Variant3", 0, none⟩, ⟨[], "Unknown", 0, none⟩] }

def fooCatchAllArgs : MacroArgs :=
  { non_zero := false, catch_all := some "Unknown", rust_enum_name := none }

/-- The expansion of `fooCatchAllEnum`. -/
def fooCatchAllOutput : Output :=
  buildOutput fooCatchAllEnum fooCatchAllArgs "u32"
    [("Variant", 0), ("Variant2", 1), ("Variant3", 2), ("Unknown", 3)]

/-- Default mode with `catch_all = "Variant"` naming the first variant, whose
computed discriminant is zero: the macro accepts this input, yet the emitted
`assert!(FooRustified::Variant as u64 != 0)` fails at the invoker's build. -/
def assertZeroEnum : ItemEnum :=
  { ident := "Foo", vis := "",
    attrs := [⟨AttrStyle.outer, Meta.list (some "repr") "u32"⟩],
    variants := [⟨[], "Variant", 0, none⟩, ⟨[], "Variant2", 0, none⟩] }

def assertZeroArgs : MacroArgs :=
  { non_zero := false, catch_all := some "Variant", rust_enum_name := none }

/-- The expansion of `assertZeroEnum`. -/
def assertZeroOutput : Output :=
  buildOutput assertZeroEnum assertZeroArgs "u32" [("Variant", 0), ("Variant2", 1)]

/-- An enumeration whose only variant already bears the default catch-all
name `UnknownVariantFoo`; with no `catch_all` option the builder appends a
second variant of the same name. -/
def dupNameEnum : ItemEnum :=
  { ident := "Foo", vis := "",
    attrs := [⟨AttrStyle.outer, Meta.list (some "repr") "u32"⟩],
    variants := [⟨[], "UnknownVariantFoo", 0, none⟩] }

def dupNameArgs : MacroArgs :=
  { non_zero := false, catch_all := none, rust_enum_name := none }

/-- `enum Ovf { A = 9223372036854775807, B }` with `#[repr(i64)]`: the
explicit discriminant is `i64::MAX`, so the `curr_discriminant += 1` before
`B` overflows `i64`. -/
def overflowEnum : ItemEnum :=
  { ident := "Ovf", vis := "",
    attrs := [⟨AttrStyle.outer, Meta.list (some "repr") "i64"⟩],
    variants := [⟨[], "A", 0, some (Expr.lit (Lit.int i64Max))⟩,
                 ⟨[], "B", 0, none⟩] }

def overflowArgs : MacroArgs :=
  { non_zero := false, catch_all := none, rust_enum_name := none }

/-- The expansion of `overflowEnum`: `B`'s constant wraps to `i64::MIN`. -/
def overflowOutput : Output :=
  buildOutput overflowEnum overflowArgs "i64" [("A", i64Max), ("B", i64Min)]

/-- An enumeration with no outer `repr` attribute (only an inner one, which
`get_enum_repr` filters out). -/
def noReprEnum : ItemEnum :=
  { ident := "Bar", vis := "",
    attrs := [⟨AttrStyle.inner, Meta.list (some "repr") "u32"⟩],
    variants := [⟨[], "Variant", 0, none⟩] }

/-! ## Helper lemmas -/

theorem evaluate_ok_inv (e : Expr) (n : Int)
    (h : evaluate_discriminant_expr e = .ok n) :
    e = Expr.lit (Lit.int n) ∧ i64Min ≤ n ∧ n ≤ i64Max := by
  cases e with
  | lit l =>
    cases l with
    | int v =>
      simp only [evaluate_discriminant_expr, base10_parse_i64] at h
      split at h
      · cases h
      split at h
      · cases h
      · cases h
        refine ⟨rfl, by omega, by omega⟩
    | other => cases h
  | nonLit => cases h

theorem evaluate_lit_int (v : Int) (h1 : i64Min ≤ v) (h2 : v ≤ i64Max) :
    evaluate_discriminant_expr (Expr.lit (Lit.int v)) = .ok v := by
  simp only [evaluate_discriminant_expr, base10_parse_i64]
  rw [if_neg (by omega), if_neg (by omega)]

theorem evaluate_error_ne_zeroDiscMsg (e : Expr) (err : SynError)
    (h : evaluate_discriminant_expr e = .error err) : err ≠ zeroDiscMsg := by
  cases e with
  | lit l =>
    cases l with
    | int v =>
      simp only [evaluate_discriminant_expr, base10_parse_i64] at h
      split at h
      · cases h; decide
      split at h
      · cases h; decide
      · cases h
    | other => cases h; decide
  | nonLit => cases h; decide

theorem stepDiscriminant_ok_discOfV (curr : Int) (v : Variant) (n : Int)
    (h : stepDiscriminant curr v = .ok n) : discOfV curr v = n := by
  cases hd : v.discriminant with
  | none =>
    simp only [stepDiscriminant, hd] at h
    cases h
    simp [discOfV, hd]
  | some e =>
    simp only [stepDiscriminant, hd] at h
    obtain ⟨he, -, -⟩ := evaluate_ok_inv e n h
    simp [discOfV, hd, he]

theorem walkVariants_ok_assignPairs (non_zero : Bool) (vs : List Variant) :
    ∀ (curr : Int) (cs : List (String × Int)),
      walkVariants non_zero curr vs = .ok cs → cs = assignPairs curr vs := by
  induction vs with
  | nil =>
    intro curr cs h
    simp only [walkVariants] at h
    cases h
    rfl
  | cons v rest ih =>
    intro curr cs h
    simp only [walkVariants] at h
    cases hs : stepDiscriminant curr v with
    | error err => simp only [hs] at h; exact Except.noConfusion h
    | ok curr' =>
      simp only [hs] at h
      split at h
      · cases h
      split at h
      · cases h
      · cases hw : walkVariants non_zero (wrapI64 (curr' + 1)) rest with
        | error err => simp only [hw] at h; exact Except.noConfusion h
        | ok cs' =>
          simp only [hw] at h
          cases h
          have hd := stepDiscriminant_ok_discOfV curr v curr' hs
          simp only [assignPairs, hd]
          exact congrArg _ (ih (wrapI64 (curr' + 1)) cs' hw)

theorem walkVariants_ok_nonzero (vs : List Variant) :
    ∀ (curr : Int) (cs : List (String × Int)),
      walkVariants true curr vs = .ok cs → ∀ p ∈ cs, p.2 ≠ 0 := by
  induction vs with
  | nil =>
    intro curr cs h
    simp only [walkVariants] at h
    cases h
    intro p hp
    cases hp
  | cons v rest ih =>
    intro curr cs h
    simp only [walkVariants] at h
    cases hs : stepDiscriminant curr v with
    | error err => simp only [hs] at h; exact Except.noConfusion h
    | ok curr' =>
      simp only [hs] at h
      by_cases hz : curr' = 0
      · rw [if_pos (by simp [hz])] at h
        cases h
      · rw [if_neg (by simp [hz])] at h
        split at h
        · cases h
        · cases hw : walkVariants true (wrapI64 (curr' + 1)) rest with
          | error err => simp only [hw] at h; exact Except.noConfusion h
          | ok cs' =>
            simp only [hw] at h
            cases h
            intro p hp
            rcases List.mem_cons.mp hp with hp | hp
            · subst hp
              simpa using hz
            · exact ih (wrapI64 (curr' + 1)) cs' hw p hp

theorem walkVariants_zero_error_iff (vs : List Variant) :
    ∀ curr : Int,
      (walkVariants true curr vs = .error zeroDiscMsg ↔
        reachesZeroDiscriminant curr vs = true) := by
  induction vs with
  | nil =>
    intro curr
    simp [walkVariants, reachesZeroDiscriminant]
  | cons v rest ih =>
    intro curr
    simp only [walkVariants, reachesZeroDiscriminant]
    cases hd : v.discriminant with
    | some e =>
      simp only [hd]
      cases he : evaluate_discriminant_expr e with
      | error err =>
        have hstep : stepDiscriminant curr v = .error err := by
          simp [stepDiscriminant, hd, he]
        simp only [hstep, he]
        constructor
        · intro hc
          injection hc with hmsg
          exact absurd hmsg (evaluate_error_ne_zeroDiscMsg e err he)
        · intro hc
          simp at hc
      | ok n =>
        have hstep : stepDiscriminant curr v = .ok n := by
          simp [stepDiscriminant, hd, he]
        simp only [hstep, he]
        by_cases hz : n = 0
        · subst hz
          simp [zeroDiscMsg]
        · rw [if_neg (by simp [hz])]
          by_cases hf : v.fields = 0
          · rw [if_neg (by simp [hf])]
            cases hw : walkVariants true (wrapI64 (n + 1)) rest with
            | error err' =>
              have := ih (wrapI64 (n + 1))
              rw [hw] at this
              simp only [hw, this]
              simp [hz, hf]
            | ok cs' =>
              have := ih (wrapI64 (n + 1))
              rw [hw] at this
              simp only [hw]
              constructor
              · intro hc; cases hc
              · intro hc
                simp [hz, hf] at hc
                exact absurd (this.mpr hc) (by simp)
          · rw [if_pos (by simpa using hf)]
            constructor
            · intro hc
              injection hc with hmsg
              exact absurd hmsg (by decide)
            · intro hc
              simp [hz, hf] at hc
    | none =>
      simp only [hd]
      have hstep : stepDiscriminant curr v = .ok curr := by
        simp [stepDiscriminant, hd]
      simp only [hstep]
      by_cases hz : curr = 0
      · subst hz
        simp [zeroDiscMsg]
      · rw [if_neg (by simp [hz])]
        by_cases hf : v.fields = 0
        · rw [if_neg (by simp [hf])]
          cases hw : walkVariants true (wrapI64 (curr + 1)) rest with
          | error err' =>
            have := ih (wrapI64 (curr + 1))
            rw [hw] at this
            simp only [hw, this]
            simp [hz, hf]
          | ok cs' =>
            have := ih (wrapI64 (curr + 1))
            rw [hw] at this
            simp only [hw]
            constructor
            · intro hc; cases hc
            · intro hc
              simp [hz, hf] at hc
              exact absurd (this.mpr hc) (by simp)
        · rw [if_pos (by simpa using hf)]
          constructor
          · intro hc
            injection hc with hmsg
            exact absurd hmsg (by decide)
          · intro hc
            simp [hz, hf] at hc

theorem findKey_eq_of_mem {α β : Type} [BEq β] [LawfulBEq β] (key : α → β)
    (l : List α) (x : α) (hx : x ∈ l) (hn : (l.map key).Nodup) :
    l.find? (fun y => key y == key x) = some x := by
  induction l with
  | nil => cases hx
  | cons a t ih =>
    rw [List.map_cons, List.nodup_cons] at hn
    by_cases hk : key a = key x
    · have hax : a = x := by
        rcases List.mem_cons.mp hx with hx' | hx'
        · exact hx'.symm
        · exact absurd (hk ▸ List.mem_map_of_mem key hx') hn.1
      rw [List.find?_cons_of_pos _ (by simp [hk])]
      rw [hax]
    · rw [List.find?_cons_of_neg _ (by simp [hk])]
      have hxt : x ∈ t := by
        rcases List.mem_cons.mp hx with hx' | hx'
        · exact absurd (hx' ▸ rfl) hk
        · exact hx'
      exact ih hxt hn.2

theorem assignPairs_map_fst (vs : List Variant) :
    ∀ curr : Int, (assignPairs curr vs).map Prod.fst = vs.map Variant.ident := by
  induction vs with
  | nil => intro curr; rfl
  | cons v rest ih =>
    intro curr
    simp only [assignPairs, List.map_cons, ih]

theorem assignPairs_length (vs : List Variant) :
    ∀ curr : Int, (assignPairs curr vs).length = vs.length := by
  induction vs with
  | nil => intro curr; rfl
  | cons v rest ih =>
    intro curr
    simp only [assignPairs, List.length_cons, ih]

theorem assignPairs_append (xs ys : List Variant) :
    ∀ curr : Int,
      assignPairs curr (xs ++ ys) =
        assignPairs curr xs ++ assignPairs (afterCounter curr xs) ys := by
  induction xs with
  | nil => intro curr; rfl
  | cons v rest ih =>
    intro curr
    simp only [List.cons_append, assignPairs, afterCounter, List.append_eq]
    exact congrArg _ (ih _)

theorem assignPairs_getD_lit (vs : List Variant) :
    ∀ (curr : Int) (i : Nat) (n : Int), i < vs.length →
      (vs.getD i default).discriminant = some (Expr.lit (Lit.int n)) →
      ((assignPairs curr vs).getD i ("", 0)).2 = n := by
  induction vs with
  | nil =>
    intro curr i n hi
    cases hi
  | cons v rest ih =>
    intro curr i n hi hd
    cases i with
    | zero =>
      simp only [List.getD_cons_zero] at hd
      simp only [assignPairs, List.getD_cons_zero, discOfV, hd]
    | succ i =>
      simp only [List.getD_cons_succ] at hd
      simp only [assignPairs, List.getD_cons_succ]
      exact ih _ i n (by simpa using hi) hd

theorem assignPairs_getD_none (vs : List Variant) :
    ∀ (curr : Int) (i : Nat), i < vs.length →
      (vs.getD i default).discriminant = none →
      ((assignPairs curr vs).getD i ("", 0)).2 =
        (if i = 0 then curr
         else wrapI64 (((assignPairs curr vs).getD (i - 1) ("", 0)).2 + 1)) := by
  induction vs with
  | nil =>
    intro curr i hi
    cases hi
  | cons v rest ih =>
    intro curr i hi hd
    cases i with
    | zero =>
      simp only [List.getD_cons_zero] at hd
      simp only [assignPairs, List.getD_cons_zero, discOfV, hd]
      simp
    | succ i =>
      simp only [List.getD_cons_succ] at hd
      have hrec := ih (wrapI64 (discOfV curr v + 1)) i (by simpa using hi) hd
      cases i with
      | zero =>
        simp only [assignPairs, List.getD_cons_succ]
        simp only [if_pos rfl] at hrec
        simp at hrec ⊢
        exact hrec
      | succ j =>
        simp only [assignPairs, List.getD_cons_succ]
        simp only [if_neg (Nat.succ_ne_zero j)] at hrec
        simpa using hrec

/-! ## Structure of a successful expansion -/

theorem buildOutput_constants (e : ItemEnum) (args : MacroArgs) (r : String)
    (cs : List (String × Int)) : (buildOutput e args r cs).constants = cs := by
  unfold buildOutput
  cases args.catch_all <;> simp

theorem enum_ffi_newtype_ok_inv (e : ItemEnum) (args : MacroArgs) (o : Output)
    (h : enum_ffi_newtype e args = .ok o) :
    ∃ r cs, get_enum_repr e = .ok r ∧
      walkVariants args.non_zero 0 e.variants = .ok cs ∧
      o = buildOutput e args r cs := by
  unfold enum_ffi_newtype at h
  cases hr : get_enum_repr e with
  | error err => rw [hr] at h; exact Except.noConfusion h
  | ok r =>
    rw [hr] at h
    cases hw : walkVariants args.non_zero 0 e.variants with
    | error err => simp only [hw] at h; exact Except.noConfusion h
    | ok cs =>
      simp only [hw, Except.ok.injEq] at h
      exact ⟨r, cs, rfl, rfl, h.symm⟩

theorem buildOutput_catchAll_some (e : ItemEnum) (args : MacroArgs) (r : String)
    (cs : List (String × Int)) (ca : String) (hca : args.catch_all = some ca) :
    (buildOutput e args r cs).catchAllIdent = ca ∧
      ((ca ∈ e.variants.map Variant.ident ∧
          (buildOutput e args r cs).rustEnum.variants = e.variants) ∨
       (ca ∉ e.variants.map Variant.ident ∧
          (buildOutput e args r cs).rustEnum.variants = e.variants ++ [mkUnitVariant ca])) := by
  unfold buildOutput
  rw [hca]
  by_cases hex : e.variants.any (fun v => v.ident == ca) = true
  · have hmem : ca ∈ e.variants.map Variant.ident := by
      rcases List.any_eq_true.mp hex with ⟨v, hv, hvca⟩
      exact List.mem_map.mpr ⟨v, hv, by simpa using hvca⟩
    simp only [hex, if_true]
    simp [hmem]
  · have hmem : ca ∉ e.variants.map Variant.ident := by
      intro hc
      rcases List.mem_map.mp hc with ⟨v, hv, hvca⟩
      exact hex (List.any_eq_true.mpr ⟨v, hv, by simpa using hvca⟩)
    simp only [hex, if_false]
    simp [hmem]

theorem buildOutput_catchAll_none (e : ItemEnum) (args : MacroArgs) (r : String)
    (cs : List (String × Int)) (hca : args.catch_all = none) :
    (buildOutput e args r cs).catchAllIdent = "UnknownVariant" ++ e.ident ∧
      (buildOutput e args r cs).rustEnum.variants =
        e.variants ++ [mkUnitVariant ("UnknownVariant" ++ e.ident)] := by
  unfold buildOutput
  rw [hca]
  exact ⟨rfl, rfl⟩

theorem buildOutput_variants_cases (e : ItemEnum) (args : MacroArgs) (r : String)
    (cs : List (String × Int)) :
    (buildOutput e args r cs).rustEnum.variants = e.variants ∨
      (buildOutput e args r cs).rustEnum.variants =
        e.variants ++ [mkUnitVariant (buildOutput e args r cs).catchAllIdent] := by
  cases hca : args.catch_all with
  | some ca =>
    obtain ⟨hid, hcases⟩ := buildOutput_catchAll_some e args r cs ca hca
    rcases hcases with ⟨-, hv⟩ | ⟨-, hv⟩
    · exact Or.inl hv
    · exact Or.inr (by rw [hv, hid])
  | none =>
    obtain ⟨hid, hv⟩ := buildOutput_catchAll_none e args r cs hca
    exact Or.inr (by rw [hv, hid])

theorem buildOutput_catchAll_mem (e : ItemEnum) (args : MacroArgs) (r : String)
    (cs : List (String × Int)) :
    (buildOutput e args r cs).catchAllIdent ∈
      (buildOutput e args r cs).rustEnum.variants.map Variant.ident := by
  cases hca : args.catch_all with
  | some ca =>
    obtain ⟨hid, hcases⟩ := buildOutput_catchAll_some e args r cs ca hca
    rcases hcases with ⟨hmem, hv⟩ | ⟨-, hv⟩
    · rw [hv, hid]; exact hmem
    · rw [hv, hid]
      simp [mkUnitVariant]
  | none =>
    obtain ⟨hid, hv⟩ := buildOutput_catchAll_none e args r cs hca
    rw [hv, hid]
    simp [mkUnitVariant]


/-! ## Claims -/

/-- C7: The discriminant evaluator returns an integer exactly when the
expression is a single integer literal whose value parses as a signed 64-bit
integer; every other expression form fails with the error "discriminant must
be an integer". -/
theorem discriminant_evaluator_spec (e : Expr) :
    ((∃ n, evaluate_discriminant_expr e = .ok n) ↔
      (∃ v, e = Expr.lit (Lit.int v) ∧ i64Min ≤ v ∧ v ≤ i64Max)) ∧
    (∀ n, evaluate_discriminant_expr e = .ok n → e = Expr.lit (Lit.int n)) ∧
    ((∀ v, e ≠ Expr.lit (Lit.int v)) →
      evaluate_discriminant_expr e = .error ⟨"discriminant must be an integer"⟩) := by
  refine ⟨⟨?_, ?_⟩, ?_, ?_⟩
  · rintro ⟨n, hn⟩
    obtain ⟨he, h1, h2⟩ := evaluate_ok_inv e n hn
    exact ⟨n, he, h1, h2⟩
  · rintro ⟨v, he, h1, h2⟩
    exact ⟨v, he ▸ evaluate_lit_int v h1 h2⟩
  · intro n hn
    exact (evaluate_ok_inv e n hn).1
  · intro hne
    cases e with
    | lit l =>
      cases l with
      | int v => exact absurd rfl (hne v)
      | other => rfl
    | nonLit => rfl

/-- Witness for C7 at the concrete non-literal expression form. -/
theorem discriminant_evaluator_spec_witness :
    evaluate_discriminant_expr Expr.nonLit =
      .error ⟨"discriminant must be an integer"⟩ :=
  (discriminant_evaluator_spec Expr.nonLit).2.2 (fun _ h => Expr.noConfusion h)

/-- C8: Without an outer `repr` attribute the transformation fails with the
missing-representation error, and on any failure the macro's output is the
single compile error and nothing else (on success, the declarations and
nothing else). -/
theorem missing_repr_no_partial_emission (e : ItemEnum) (args : MacroArgs) :
    ((∀ a ∈ e.attrs, a.style = AttrStyle.outer → reprFromAttr a = none) →
      enum_ffi e args = .compileError ⟨"No `repr` attribute found."⟩) ∧
    (∀ err, enum_ffi_newtype e args = .error err →
      enum_ffi e args = .compileError err) ∧
    (∀ o, enum_ffi_newtype e args = .ok o → enum_ffi e args = .decls o) := by
  refine ⟨?_, ?_, ?_⟩
  · intro hno
    have hfind : (e.attrs.filter (fun a => a.style == AttrStyle.outer)).findSome?
        reprFromAttr = none := by
      rw [List.findSome?_eq_none_iff]
      intro a ha
      have hm := List.mem_filter.mp ha
      exact hno a hm.1 (by simpa using hm.2)
    have hr : get_enum_repr e = .error ⟨"No `repr` attribute found."⟩ := by
      unfold get_enum_repr
      rw [hfind]
    unfold enum_ffi enum_ffi_newtype
    rw [hr]
  · intro err herr
    unfold enum_ffi
    rw [herr]
  · intro o ho
    unfold enum_ffi
    rw [ho]

/-- Witness for C8 at `noReprEnum`, whose only `repr` attribute is inner. -/
theorem missing_repr_no_partial_emission_witness :
    enum_ffi noReprEnum fooArgs = .compileError ⟨"No `repr` attribute found."⟩ :=
  (missing_repr_no_partial_emission noReprEnum fooArgs).1 (by decide)

/-- C10: The running discriminant counter is exact signed 64-bit arithmetic:
negative integer literals inside the `i64` range are accepted (values outside
it are rejected by `base10_parse`), and a variant without an explicit
discriminant following a variant with discriminant `-1` receives discriminant
`0` — hence is rejected under non-zero mode. -/
theorem signed64_counter_behavior (name1 name2 : String) (a1 a2 : List String)
    (rest : List Variant) (curr : Int) :
    (∀ v : Int, i64Min ≤ v → v ≤ i64Max →
      evaluate_discriminant_expr (Expr.lit (Lit.int v)) = .ok v) ∧
    evaluate_discriminant_expr (Expr.lit (Lit.int (i64Max + 1))) =
      .error ⟨"number too large to fit in target type"⟩ ∧
    evaluate_discriminant_expr (Expr.lit (Lit.int (i64Min - 1))) =
      .error ⟨"number too small to fit in target type"⟩ ∧
    walkVariants false 0
      [⟨a1, name1, 0, some (Expr.lit (Lit.int (-1)))⟩, ⟨a2, name2, 0, none⟩] =
      .ok [(name1, -1), (name2, 0)] ∧
    walkVariants true curr
      (⟨a1, name1, 0, some (Expr.lit (Lit.int (-1)))⟩ :: ⟨a2, name2, 0, none⟩ :: rest) =
      .error zeroDiscMsg := by
  refine ⟨evaluate_lit_int, ?_, ?_, ?_, ?_⟩
  · rfl
  · rfl
  · rfl
  · rfl

/-- Witness for C10 at concrete names. -/
theorem signed64_counter_behavior_witness :
    evaluate_discriminant_expr (Expr.lit (Lit.int (-1))) = .ok (-1) ∧
    walkVariants true 0
      [⟨[], "A", 0, some (Expr.lit (Lit.int (-1)))⟩, ⟨[], "B", 0, none⟩] =
      .error zeroDiscMsg :=
  ⟨(signed64_counter_behavior "A" "B" [] [] [] 0).1 (-1) (by decide) (by decide),
   (signed64_counter_behavior "A" "B" [] [] [] 0).2.2.2.2⟩

/-- C2 counterexample: the successor is not unbounded integer addition.  On
`enum Ovf { A = 9223372036854775807, B }` the macro (compiled without
overflow checks) accepts the input, yet `B`'s emitted constant is `i64::MIN`
and not one plus the preceding constant's value `i64::MAX` — the `i64`
increment at src/lib.rs line 122 wraps (with overflow checks on it panics
instead, and nothing is emitted at all). -/
theorem discriminant_identity_counterexample :
    enum_ffi_newtype overflowEnum overflowArgs = .ok overflowOutput ∧
    (overflowEnum.variants.getD 1 default).discriminant = none ∧
    (overflowOutput.constants.getD 1 ("", 0)).2 = i64Min ∧
    ¬((overflowOutput.constants.getD 1 ("", 0)).2 =
        (overflowOutput.constants.getD 0 ("", 0)).2 + 1) :=
  ⟨rfl, rfl, rfl, by decide⟩

/-- C2 (amended): in every accepted expansion there is one associated
constant per source variant; a variant with explicit literal discriminant
`N` gets value `N`, and a variant without an explicit discriminant gets one
plus the preceding constant's value in wrapping signed 64-bit arithmetic
(`i64::MIN` after `i64::MAX`) — zero for the first variant. -/
theorem discriminant_identity_wrapped (e : ItemEnum) (args : MacroArgs) (o : Output)
    (h : enum_ffi_newtype e args = .ok o) :
    o.constants.length = e.variants.length ∧
    ∀ i, i < e.variants.length →
      (∀ n, (e.variants.getD i default).discriminant = some (Expr.lit (Lit.int n)) →
        (o.constants.getD i ("", 0)).2 = n) ∧
      ((e.variants.getD i default).discriminant = none →
        (o.constants.getD i ("", 0)).2 =
          (if i = 0 then 0
           else wrapI64 ((o.constants.getD (i - 1) ("", 0)).2 + 1))) := by
  obtain ⟨r, cs, hr, hw, rfl⟩ := enum_ffi_newtype_ok_inv e args o h
  rw [buildOutput_constants]
  have hcs : cs = assignPairs 0 e.variants :=
    walkVariants_ok_assignPairs args.non_zero e.variants 0 cs hw
  rw [hcs]
  refine ⟨assignPairs_length e.variants 0, ?_⟩
  intro i hi
  exact ⟨fun n hn => assignPairs_getD_lit e.variants 0 i n hi hn,
         fun hn => assignPairs_getD_none e.variants 0 i hi hn⟩

/-- Witness for the amended C2 at `fooNonZeroEnum` (explicit first
discriminant, then successor values, all inside the `i64` range where the
wrap is the identity). -/
theorem discriminant_identity_wrapped_witness :
    fooNonZeroOutput.constants.length = fooNonZeroEnum.variants.length ∧
    (fooNonZeroOutput.constants.getD 0 ("", 0)).2 = 1 ∧
    (fooNonZeroOutput.constants.getD 1 ("", 0)).2 =
      (if 1 = 0 then 0
       else wrapI64 ((fooNonZeroOutput.constants.getD 0 ("", 0)).2 + 1)) :=
  ⟨(discriminant_identity_wrapped fooNonZeroEnum fooNonZeroArgs fooNonZeroOutput rfl).1,
   ((discriminant_identity_wrapped fooNonZeroEnum fooNonZeroArgs fooNonZeroOutput rfl).2
      0 (by decide)).1 1 rfl,
   ((discriminant_identity_wrapped fooNonZeroEnum fooNonZeroArgs fooNonZeroOutput rfl).2
      1 (by decide)).2 rfl⟩

/-- C5: With non-zero mode on and the `repr` attribute present, the macro
fails with "discriminant must not be zero for NonZero representation" exactly
when some variant's running discriminant is zero at that variant (all earlier
checks passing), and every successful non-zero-mode expansion has only
non-zero constant values. -/
theorem nonzero_mode_zero_rejection (e : ItemEnum) (args : MacroArgs) (r : String)
    (hnz : args.non_zero = true) (hr : get_enum_repr e = .ok r) :
    (enum_ffi_newtype e args = .error zeroDiscMsg ↔
      reachesZeroDiscriminant 0 e.variants = true) ∧
    (∀ o, enum_ffi_newtype e args = .ok o → ∀ p ∈ o.constants, p.2 ≠ 0) := by
  constructor
  · unfold enum_ffi_newtype
    rw [hr]
    cases hw : walkVariants args.non_zero 0 e.variants with
    | error err =>
      simp only [hw]
      rw [hnz] at hw
      constructor
      · intro hc
        injection hc with hmsg
        exact (walkVariants_zero_error_iff e.variants 0).mp (hmsg ▸ hw)
      · intro hc
        have hz := (walkVariants_zero_error_iff e.variants 0).mpr hc
        rw [hw] at hz
        injection hz with hmsg
        rw [hmsg]
    | ok cs =>
      simp only [hw]
      constructor
      · intro hc
        exact Except.noConfusion hc
      · intro hc
        have hz := (walkVariants_zero_error_iff e.variants 0).mpr hc
        rw [hnz] at hw
        rw [hw] at hz
        exact Except.noConfusion hz
  · intro o ho p hp
    obtain ⟨r', cs, hr', hw, rfl⟩ := enum_ffi_newtype_ok_inv e args o ho
    rw [buildOutput_constants] at hp
    rw [hnz] at hw
    exact walkVariants_ok_nonzero e.variants 0 cs hw p hp

/-- Witness for C5 at `fooNonZeroEnum`. -/
theorem nonzero_mode_zero_rejection_witness :
    enum_ffi_newtype fooNonZeroEnum fooNonZeroArgs = .error zeroDiscMsg ↔
      reachesZeroDiscriminant 0 fooNonZeroEnum.variants = true :=
  (nonzero_mode_zero_rejection fooNonZeroEnum fooNonZeroArgs "u32" rfl rfl).1


/-- C1: For every accepted enumeration, in either mode, each associated
constant round-trips: the wire value of a source variant converts to the
domain variant of the same name, and that domain variant converts back to
the same wire value.  The two `Nodup` hypotheses are exactly what the
compilation of the emitted domain enumeration enforces: pairwise-distinct
variant names and pairwise-distinct discriminant values. -/
theorem roundtrip_known_variants (e : ItemEnum) (args : MacroArgs) (o : Output)
    (h : enum_ffi_newtype e args = .ok o)
    (hdisc : (o.domainPairs.map Prod.snd).Nodup)
    (hnames : (o.domainPairs.map Prod.fst).Nodup) :
    ∀ p ∈ o.constants, o.wireToDomain p.2 = p.1 ∧ o.domainToWire p.1 = p.2 := by
  obtain ⟨r, cs, hr, hw, rfl⟩ := enum_ffi_newtype_ok_inv e args o h
  have hcs : (buildOutput e args r cs).constants = cs := buildOutput_constants e args r cs
  have hcs' : cs = assignPairs 0 e.variants :=
    walkVariants_ok_assignPairs args.non_zero e.variants 0 cs hw
  have hsplit : ∃ t, (buildOutput e args r cs).domainPairs = cs ++ t := by
    rcases buildOutput_variants_cases e args r cs with hv | hv
    · exact ⟨[], by simp only [Output.domainPairs, hv, ← hcs', List.append_nil]⟩
    · refine ⟨assignPairs (afterCounter 0 e.variants)
          [mkUnitVariant (buildOutput e args r cs).catchAllIdent], ?_⟩
      simp only [Output.domainPairs, hv, assignPairs_append, ← hcs']
  obtain ⟨t, ht⟩ := hsplit
  intro p hp
  rw [hcs] at hp
  have hpd : p ∈ (buildOutput e args r cs).domainPairs :=
    ht ▸ List.mem_append_left t hp
  constructor
  · have hvals : (cs.map Prod.snd).Nodup := by
      rw [ht, List.map_append] at hdisc
      exact hdisc.of_append_left
    have hfind : cs.find? (fun y => y.2 == p.2) = some p :=
      findKey_eq_of_mem Prod.snd cs p hp hvals
    simp only [Output.wireToDomain, hcs, hfind]
  · have hfind := findKey_eq_of_mem Prod.fst _ p hpd hnames
    simp only [Output.domainToWire, Output.domainDisc, hfind]

/-- Witness for C1 in default mode (`fooEnum`) and non-zero mode
(`fooNonZeroEnum`). -/
theorem roundtrip_known_variants_witness :
    (fooOutput.wireToDomain 1 = "Variant2" ∧ fooOutput.domainToWire "Variant2" = 1) ∧
    (fooNonZeroOutput.wireToDomain 3 = "Variant3" ∧
      fooNonZeroOutput.domainToWire "Variant3" = 3) :=
  ⟨roundtrip_known_variants fooEnum fooArgs fooOutput rfl (by decide) (by decide)
      ("Variant2", 1) (by decide),
   roundtrip_known_variants fooNonZeroEnum fooNonZeroArgs fooNonZeroOutput rfl
      (by decide) (by decide) ("Variant3", 3) (by decide)⟩

/-- C3: For every accepted enumeration the emitted wire-to-domain conversion
is total — every integer maps to some variant of the emitted domain
enumeration — and any wire value differing from all associated constants
maps to the catch-all variant. -/
theorem catch_all_total_conversion (e : ItemEnum) (args : MacroArgs) (o : Output)
    (h : enum_ffi_newtype e args = .ok o) :
    ∀ w : Int,
      o.wireToDomain w ∈ o.rustEnum.variants.map Variant.ident ∧
      ((∀ p ∈ o.constants, p.2 ≠ w) → o.wireToDomain w = o.catchAllIdent) := by
  obtain ⟨r, cs, hr, hw, rfl⟩ := enum_ffi_newtype_ok_inv e args o h
  have hcs : (buildOutput e args r cs).constants = cs := buildOutput_constants e args r cs
  have hcs' : cs = assignPairs 0 e.variants :=
    walkVariants_ok_assignPairs args.non_zero e.variants 0 cs hw
  intro w
  constructor
  · cases hf : cs.find? (fun p => p.2 == w) with
    | some q =>
      have hq : q ∈ cs := List.mem_of_find?_eq_some hf
      have hqi : q.1 ∈ e.variants.map Variant.ident := by
        rw [← assignPairs_map_fst e.variants 0, ← hcs']
        exact List.mem_map_of_mem Prod.fst hq
      have hres : (buildOutput e args r cs).wireToDomain w = q.1 := by
        simp only [Output.wireToDomain, hcs, hf]
      rw [hres]
      rcases buildOutput_variants_cases e args r cs with hv | hv
      · rw [hv]
        exact hqi
      · rw [hv, List.map_append]
        exact List.mem_append_left _ hqi
    | none =>
      have hres : (buildOutput e args r cs).wireToDomain w =
          (buildOutput e args r cs).catchAllIdent := by
        simp only [Output.wireToDomain, hcs, hf]
      rw [hres]
      exact buildOutput_catchAll_mem e args r cs
  · intro hnone
    have hf : cs.find? (fun p => p.2 == w) = none := by
      rw [List.find?_eq_none]
      intro p hp
      simpa using hnone p (hcs ▸ hp)
    simp only [Output.wireToDomain, hcs, hf]

/-- Witness for C3: the unknown wire value 42 converts to the catch-all. -/
theorem catch_all_total_conversion_witness :
    fooOutput.wireToDomain 42 = fooOutput.catchAllIdent :=
  (catch_all_total_conversion fooEnum fooArgs fooOutput rfl 42).2 (by decide)

/-- C9: For every accepted enumeration whose emitted declarations compile
(distinct domain variant names and discriminant values), converting any
domain variant — the catch-all included — to the wire type and back is the
identity. -/
theorem roundtrip_all_domain_variants (e : ItemEnum) (args : MacroArgs) (o : Output)
    (h : enum_ffi_newtype e args = .ok o)
    (hdisc : (o.domainPairs.map Prod.snd).Nodup)
    (hnames : (o.domainPairs.map Prod.fst).Nodup) :
    ∀ p ∈ o.domainPairs, o.wireToDomain (o.domainToWire p.1) = p.1 := by
  obtain ⟨r, cs, hr, hw, rfl⟩ := enum_ffi_newtype_ok_inv e args o h
  have hcs : (buildOutput e args r cs).constants = cs := buildOutput_constants e args r cs
  have hcs' : cs = assignPairs 0 e.variants :=
    walkVariants_ok_assignPairs args.non_zero e.variants 0 cs hw
  intro p hp
  have hdw : (buildOutput e args r cs).domainToWire p.1 = p.2 := by
    have hfind := findKey_eq_of_mem Prod.fst _ p hp hnames
    simp only [Output.domainToWire, Output.domainDisc, hfind]
  rw [hdw]
  rcases buildOutput_variants_cases e args r cs with hv | hv
  · have hdp : (buildOutput e args r cs).domainPairs = cs := by
      simp only [Output.domainPairs, hv, ← hcs']
    rw [hdp] at hp hdisc
    have hfind := findKey_eq_of_mem Prod.snd cs p hp hdisc
    simp only [Output.wireToDomain, hcs, hfind]
  · have hdp : (buildOutput e args r cs).domainPairs =
        cs ++ [((buildOutput e args r cs).catchAllIdent, afterCounter 0 e.variants)] := by
      simp only [Output.domainPairs, hv, assignPairs_append, ← hcs']
      rfl
    rw [hdp] at hp hdisc
    rw [List.map_append, List.nodup_append] at hdisc
    rcases List.mem_append.mp hp with hpc | hpt
    · have hfind := findKey_eq_of_mem Prod.snd cs p hpc hdisc.1
      simp only [Output.wireToDomain, hcs, hfind]
    · have hpeq : p = ((buildOutput e args r cs).catchAllIdent, afterCounter 0 e.variants) := by
        simpa using hpt
      have hnot : ∀ q ∈ cs, ¬(q.2 == p.2) = true := by
        intro q hq hbe
        have hqq : q.2 = p.2 := by simpa using hbe
        refine hdisc.2.2 (List.mem_map_of_mem Prod.snd hq) ?_
        rw [hqq, hpeq]
        simp
      have hf : cs.find? (fun q => q.2 == p.2) = none := List.find?_eq_none.mpr hnot
      have hres : (buildOutput e args r cs).wireToDomain p.2 =
          (buildOutput e args r cs).catchAllIdent := by
        simp only [Output.wireToDomain, hcs, hf]
      rw [hres, hpeq]

/-- Witness for C9: the appended catch-all of `fooEnum` round-trips. -/
theorem roundtrip_all_domain_variants_witness :
    fooOutput.wireToDomain (fooOutput.domainToWire "UnknownVariantFoo") =
      "UnknownVariantFoo" :=
  roundtrip_all_domain_variants fooEnum fooArgs fooOutput rfl (by decide) (by decide)
    ("UnknownVariantFoo", 3) (by decide)


/-- C4 counterexample: the emitted constant assertion is generated
unconditionally.  On `assertZeroEnum` with `non_zero` unset and
`catch_all = "Variant"` (an existing variant with discriminant zero) the
macro succeeds, yet the asserted condition `CatchAll as u64 != 0` is false,
so the emitted declarations fail to compile — refuting "the emitted
assertion never causes a compile failure" in default mode. -/
theorem assertion_harmless_counterexample :
    assertZeroArgs.non_zero = false ∧
    enum_ffi_newtype assertZeroEnum assertZeroArgs = .ok assertZeroOutput ∧
    assertZeroOutput.assertionPasses = false :=
  ⟨rfl, rfl, rfl⟩

/-- C4 (amended): the emitted assertion is unconditional; for every accepted
enumeration (either mode, distinct domain variant names) it fails exactly
when the catch-all's numeric value cast to `u64` is zero — in particular it
does fail in default mode when the catch-all is an existing variant with
discriminant zero. -/
theorem assertion_fails_iff_catch_all_zero (e : ItemEnum) (args : MacroArgs)
    (o : Output) (h : enum_ffi_newtype e args = .ok o)
    (hnames : (o.domainPairs.map Prod.fst).Nodup) :
    (∀ d, (o.catchAllIdent, d) ∈ o.domainPairs →
      (o.assertionPasses = false ↔ castU64 d = 0)) ∧
    ((o.catchAllIdent, 0) ∈ o.constants → o.assertionPasses = false) := by
  have hfirst : ∀ d, (o.catchAllIdent, d) ∈ o.domainPairs →
      (o.assertionPasses = false ↔ castU64 d = 0) := by
    intro d hd
    have hfind := findKey_eq_of_mem Prod.fst o.domainPairs (o.catchAllIdent, d) hd hnames
    have hdd : o.domainDisc o.catchAllIdent = d := by
      simp only [Output.domainDisc]
      have hfind' : o.domainPairs.find? (fun p => p.1 == o.catchAllIdent) =
          some (o.catchAllIdent, d) := by simpa using hfind
      rw [hfind']
    rw [Output.assertionPasses, hdd]
    simp
  refine ⟨hfirst, ?_⟩
  intro hmem
  obtain ⟨r, cs, hr, hw, rfl⟩ := enum_ffi_newtype_ok_inv e args o h
  have hcs : (buildOutput e args r cs).constants = cs := buildOutput_constants e args r cs
  have hcs' : cs = assignPairs 0 e.variants :=
    walkVariants_ok_assignPairs args.non_zero e.variants 0 cs hw
  have hpd : ((buildOutput e args r cs).catchAllIdent, (0 : Int)) ∈
      (buildOutput e args r cs).domainPairs := by
    rw [hcs] at hmem
    rcases buildOutput_variants_cases e args r cs with hv | hv
    · simp only [Output.domainPairs, hv, ← hcs']
      exact hmem
    · simp only [Output.domainPairs, hv, assignPairs_append, ← hcs']
      exact List.mem_append_left _ hmem
  exact (hfirst 0 hpd).mpr (by simp [castU64, Int.emod])

/-- Witness for the amended C4 at `assertZeroEnum`. -/
theorem assertion_fails_iff_catch_all_zero_witness :
    assertZeroOutput.assertionPasses = false :=
  (assertion_fails_iff_catch_all_zero assertZeroEnum assertZeroArgs assertZeroOutput
      rfl (by decide)).2 (by decide)

/-- C6 counterexample: on `dupNameEnum` (a source variant already named
`UnknownVariantFoo`) with no `catch_all` option, the builder appends a second
variant of that name, so the domain enumeration contains two variants bearing
the catch-all identifier — refuting "the domain type always contains exactly
one catch-all variant". -/
theorem catch_all_unique_counterexample :
    (enum_ffi_newtype dupNameEnum dupNameArgs).map
        (fun o => (o.rustEnum.variants.map Variant.ident).count o.catchAllIdent) =
      Except.ok 2 :=
  rfl

/-- C6 (amended): for an accepted enumeration with pairwise-distinct source
variant names whose default catch-all name does not collide with a source
variant, the domain enumeration contains exactly one variant bearing the
catch-all identifier, and the builder behaves as claimed: a supplied
`catch_all` naming an existing variant is reused with nothing appended, a
supplied `catch_all` naming no variant is appended as a fresh unit variant,
and an absent `catch_all` appends a fresh unit variant named
`UnknownVariant<SourceName>` at the end. -/
theorem catch_all_resolution (e : ItemEnum) (args : MacroArgs) (o : Output)
    (h : enum_ffi_newtype e args = .ok o)
    (hnod : (e.variants.map Variant.ident).Nodup)
    (hdef : args.catch_all = none →
      ("UnknownVariant" ++ e.ident) ∉ e.variants.map Variant.ident) :
    (o.rustEnum.variants.map Variant.ident).count o.catchAllIdent = 1 ∧
    (∀ ca, args.catch_all = some ca →
      o.catchAllIdent = ca ∧
      (ca ∈ e.variants.map Variant.ident → o.rustEnum.variants = e.variants) ∧
      (ca ∉ e.variants.map Variant.ident →
        o.rustEnum.variants = e.variants ++ [mkUnitVariant ca])) ∧
    (args.catch_all = none →
      o.catchAllIdent = "UnknownVariant" ++ e.ident ∧
      o.rustEnum.variants = e.variants ++ [mkUnitVariant o.catchAllIdent]) := by
  obtain ⟨r, cs, hr, hw, rfl⟩ := enum_ffi_newtype_ok_inv e args o h
  refine ⟨?_, ?_, ?_⟩
  · cases hca : args.catch_all with
    | some ca =>
      obtain ⟨hid, hcases⟩ := buildOutput_catchAll_some e args r cs ca hca
      rcases hcases with ⟨hmem, hv⟩ | ⟨hmem, hv⟩
      · rw [hv, hid]
        exact List.count_eq_one_of_mem hnod hmem
      · rw [hv, hid, List.map_append, List.count_append]
        have h0 : (e.variants.map Variant.ident).count ca = 0 :=
          List.count_eq_zero_of_not_mem hmem
        simp [mkUnitVariant, h0]
    | none =>
      obtain ⟨hid, hv⟩ := buildOutput_catchAll_none e args r cs hca
      rw [hv, hid, List.map_append, List.count_append]
      have h0 : (e.variants.map Variant.ident).count ("UnknownVariant" ++ e.ident) = 0 :=
        List.count_eq_zero_of_not_mem (hdef hca)
      simp [mkUnitVariant, h0]
  · intro ca hca
    obtain ⟨hid, hcases⟩ := buildOutput_catchAll_some e args r cs ca hca
    refine ⟨hid, ?_, ?_⟩
    · intro hmem
      rcases hcases with ⟨-, hv⟩ | ⟨hnmem, -⟩
      · exact hv
      · exact absurd hmem hnmem
    · intro hnmem
      rcases hcases with ⟨hmem, -⟩ | ⟨-, hv⟩
      · exact absurd hmem hnmem
      · exact hv
  · intro hca
    obtain ⟨hid, hv⟩ := buildOutput_catchAll_none e args r cs hca
    exact ⟨hid, by rw [hv, hid]⟩

/-- Witness for the amended C6 at `fooCatchAllEnum` (reused catch-all). -/
theorem catch_all_resolution_witness :
    (fooCatchAllOutput.rustEnum.variants.map Variant.ident).count
        fooCatchAllOutput.catchAllIdent = 1 :=
  (catch_all_resolution fooCatchAllEnum fooCatchAllArgs fooCatchAllOutput rfl
      (by decide) (by decide)).1

end EnumFfi
